import Mathlib

/-!
Shallow embedding of the p16-dashboard fetch-and-cache layer
(`src/data_manager.py`, `src/loaders/data_loader.py`,
`src/fetchers/github_fetcher.py`).

Dates are modelled as day ordinals (`Nat`); metric values as `Int`.
A pandas `DataFrame` with the usual two-column metric schema is a column
list plus `(date, value)` rows.  The filesystem is a map from path
strings to optional file data; a file whose CSV text `pd.read_csv`
cannot parse is modelled with `parsed = none` (reading raises).  Python
exceptions are modelled with `Except PyErr`.
-/

namespace P16

/-- The six metric types handled by `DataManager.types`. -/
inductive MetricType where
  | stars | forks | prs | downloads | issues | contributions
deriving DecidableEq, Repr

open MetricType

/-- Value-column name per metric type, as in the repeated
`expected_cols` / `expected` tables of the source. -/
def valueCol : MetricType → String
  | stars => "stars"
  | forks => "forks"
  | prs => "pr_count"
  | downloads => "downloads"
  | issues => "issues"
  | contributions => "commits"

/-- `expected_cols` table of `DataManager._fetch_and_save_data` /
`DataLoader`: `["date", <value column>]`. -/
def expectedCols (t : MetricType) : List String := ["date", valueCol t]

/-- `DataLoader._base_name`. -/
def baseName : MetricType → String
  | stars => "github_stars.csv"
  | forks => "github_forks.csv"
  | prs => "github_pull_requests.csv"
  | downloads => "github_downloads.csv"
  | issues => "github_issues.csv"
  | contributions => "github_contributions.csv"

/-- `DataLoader.path_for`: repository-specific path when owner and repo
are both non-empty, otherwise the generic legacy path. -/
def pathFor (dataDir : String) (t : MetricType) (owner : String := "") (repo : String := "") : String :=
  if owner ≠ "" ∧ repo ≠ "" then
    dataDir ++ "/" ++ owner ++ "_" ++ repo ++ "_" ++ baseName t
  else
    dataDir ++ "/" ++ baseName t

/-- A metric row: `(date, value)`. -/
abbrev Row := Nat × Int

/-- A two-column metric dataframe: column names plus `(date, value)` rows. -/
structure DataFrame where
  cols : List String
  rows : List Row
deriving DecidableEq, Repr

/-- Empty dataframe with the metric's schema
(`pd.DataFrame(columns=["date", <value column>])`). -/
def emptyDF (t : MetricType) : DataFrame := ⟨expectedCols t, []⟩

/-- A raw CSV row as parsed by `pd.read_csv`: the date cell may later
fail `pd.to_datetime(..., errors="coerce")` (modelled `none`). -/
structure RawTable where
  cols : List String
  rows : List (Option Nat × Int)
deriving DecidableEq, Repr

/-- An on-disk cache file: its age in hours (from mtime) and its parsed
CSV content; `parsed = none` models a file `pd.read_csv` raises on. -/
structure FileData where
  age : Nat
  parsed : Option RawTable
deriving DecidableEq, Repr

/-- The filesystem: path → optional file. -/
abbrev FS := String → Option FileData

/-- Python exceptions that the modelled code can raise. -/
inductive PyErr where
  | parseError
  | attributeError
  | runtimeError (msg : String)
deriving DecidableEq, Repr

/-! ### List helpers modelling the pandas operations used by the code -/

/-- First value stored at a date (the row `drop_duplicates` keeps, and
the value a unique-date frame associates to the date). -/
def lookupDate : List Row → Nat → Option Int
  | [], _ => none
  | r :: rs, d => if r.1 = d then some r.2 else lookupDate rs d

/-- `drop_duplicates(subset=["date"])` with pandas' default
`keep="first"`: keep the first row of each date. -/
def dedupByDateAux : List Nat → List Row → List Row
  | _, [] => []
  | seen, r :: rs =>
    if r.1 ∈ seen then dedupByDateAux seen rs
    else r :: dedupByDateAux (r.1 :: seen) rs

def dedupByDate (l : List Row) : List Row := dedupByDateAux [] l

/-- Insertion step of `sort_values("date")`. -/
def insertByDate (r : Row) : List Row → List Row
  | [] => [r]
  | x :: xs => if r.1 ≤ x.1 then r :: x :: xs else x :: insertByDate r xs

/-- `sort_values("date")` (insertion sort; date ties do not occur where
the code sorts after a date-dedup, and no claim depends on tie order). -/
def sortByDate : List Row → List Row
  | [] => []
  | r :: rs => insertByDate r (sortByDate rs)

/-- Keep-first dedup of a date list (the distinct groups of a pandas
`groupby("date")`). -/
def dedupNatAux : List Nat → List Nat → List Nat
  | _, [] => []
  | seen, d :: ds =>
    if d ∈ seen then dedupNatAux seen ds
    else d :: dedupNatAux (d :: seen) ds

def dedupNat (l : List Nat) : List Nat := dedupNatAux [] l

/-- `df.groupby("date", as_index=False)["delta"].sum().sort_values("date")`
for a frame whose `delta` column is the constant 1: one row per distinct
date carrying the number of occurrences. -/
def groupCount (dates : List Nat) : List Row :=
  sortByDate ((dedupNat dates).map fun d => (d, (dates.count d : Int)))

/-- Running cumulative sum of the value column (`cumsum`). -/
def cumsum (acc : Int) : List Row → List Row
  | [] => []
  | (d, v) :: rs => (d, acc + v) :: cumsum (acc + v) rs

/-- The dates of a row list. -/
def rowDates (l : List Row) : List Nat := l.map Prod.fst

/-- The dates in `l` are pairwise distinct (at most one row per date). -/
def DatesNodup (l : List Row) : Prop := (rowDates l).Nodup

/-- The rows are sorted by date. -/
def DatesSorted (l : List Row) : Prop := l.Pairwise fun a b => a.1 ≤ b.1

/-- The value column is non-decreasing along the row order. -/
def ValuesMono (l : List Row) : Prop := l.Chain' fun a b => a.2 ≤ b.2

/-! ### Cache Store: `DataLoader` (`src/loaders/data_loader.py`) -/

/-- `set(expected).issubset(set(df.columns))`. -/
def colsSubset (expected cols : List String) : Bool := expected.all (· ∈ cols)

/-- `df["date"] = pd.to_datetime(df["date"], errors="coerce");
df = df.dropna(subset=["date"]).sort_values("date")`: coerce dates,
silently drop unparseable ones, sort by date. -/
def parseSortRows (rows : List (Option Nat × Int)) : List Row :=
  sortByDate (rows.filterMap fun r => r.1.map fun d => (d, r.2))

/-- `pd.read_csv(path)` on an existing file: raises (models
`pandas.errors.ParserError` and kin) when the content is not parseable. -/
def readCsv (f : FileData) : Except PyErr RawTable :=
  match f.parsed with
  | none => .error .parseError
  | some tab => .ok tab

/-- The generic-legacy-file fallback half of `DataLoader.get_for`
(its code from `generic_path = self.path_for(data_type)` on). -/
def getForGeneric (fs : FS) (dataDir : String) (t : MetricType) : Except PyErr DataFrame := do
  let genericPath := pathFor dataDir t
  match fs genericPath with
  | some f => do
    let tab ← readCsv f
    if colsSubset (expectedCols t) tab.cols then
      pure ⟨tab.cols, parseSortRows tab.rows⟩
    else
      pure ⟨expectedCols t, []⟩
  | none => pure ⟨expectedCols t, []⟩

/-- `DataLoader.get_for`: try the repository-specific file first; it is
used only when it parses, has strictly more than one row
(`if not df.empty and len(df) > 1`) and carries the expected columns;
otherwise fall back to the generic file, and finally to an empty frame
with the metric's schema. -/
def getFor (fs : FS) (dataDir : String) (t : MetricType) (owner repo : String) : Except PyErr DataFrame := do
  let path := pathFor dataDir t owner repo
  match fs path with
  | some f => do
    let tab ← readCsv f
    if decide (tab.rows.length > 1) && colsSubset (expectedCols t) tab.cols then
      pure ⟨tab.cols, parseSortRows tab.rows⟩
    else
      getForGeneric fs dataDir t
  | none => getForGeneric fs dataDir t

/-! ### Orchestrator: `DataManager` (`src/data_manager.py`) -/

/-- The upstream fetchers seen by `DataManager._fetch_and_save_data`:
each metric's fetcher either returns a dataframe or raises. -/
structure FetchEnv where
  fetch : MetricType → Except PyErr DataFrame

/-- `df.to_csv(path, index=False)`: overwrite the file; the new file is
fresh (age 0) and round-trips through `read_csv`. -/
def writeCsv (fs : FS) (path : String) (df : DataFrame) : FS :=
  fun p => if p = path then
    some ⟨0, some ⟨df.cols, df.rows.map fun r => (some r.1, r.2)⟩⟩
  else fs p

/-- `DataManager._is_data_stale`: missing file is stale; otherwise the
age in hours must not exceed the refresh threshold. -/
def isStale (fs : FS) (path : String) (threshold : Nat) : Bool :=
  match fs path with
  | none => true
  | some f => f.age > threshold

/-- `DataManager._fetch_and_save_data`: run the metric's fetcher, keep
only the expected columns that are present
(`df[[c for c in expected_cols if c in df.columns]]`), write the CSV
(write errors are caught and logged), return the frame. -/
def fetchAndSave (env : FetchEnv) (fs : FS) (dataDir : String) (t : MetricType)
    (owner repo : String) : Except PyErr (FS × DataFrame) := do
  let df ← env.fetch t
  let df : DataFrame := ⟨(expectedCols t).filter (· ∈ df.cols), df.rows⟩
  let fs := writeCsv fs (pathFor dataDir t owner repo) df
  pure (fs, df)

/-- `DataManager.get_data`: fetch fresh on `force_refresh` or a stale
cache file, otherwise load via the loader. -/
def getData (env : FetchEnv) (fs : FS) (dataDir : String) (t : MetricType)
    (owner repo : String) (force : Bool) (threshold : Nat) : Except PyErr (FS × DataFrame) :=
  if force || isStale fs (pathFor dataDir t owner repo) threshold then
    fetchAndSave env fs dataDir t owner repo
  else do
    let df ← getFor fs dataDir t owner repo
    pure (fs, df)

/-- `DataManager.get_all_cached_data`: dict comprehension over the six
types; any exception from one metric's `get_data` propagates. -/
def getAllCachedData (env : FetchEnv) (fs : FS) (dataDir : String)
    (owner repo : String) (force : Bool) (threshold : Nat) :
    Except PyErr (FS × List (MetricType × DataFrame)) :=
  [stars, forks, prs, downloads, issues, contributions].foldlM
    (fun acc t => do
      let (fs', df) ← getData env acc.1 dataDir t owner repo force threshold
      pure (fs', acc.2 ++ [(t, df)]))
    (fs, [])

def listMin : List Nat → Option Nat
  | [] => none
  | d :: ds => some ((listMin ds).elim d (min d))

def listMax : List Nat → Option Nat
  | [] => none
  | d :: ds => some ((listMax ds).elim d (max d))

/-- The range-coverage check of `get_all_cached_data_for_range`: inside
its `try`, the requested bounds are parsed (`pd.to_datetime` raising on
an unparseable bound is caught and forces a fetch), and the cache covers
the range only when `cached_dates.min() <= req_start`,
`cached_dates.max() >= req_end` and the file is not stale by age. -/
def coverageNeedsFetch (cached : DataFrame) (start? end? : Option Nat)
    (fs : FS) (path : String) (threshold : Nat) : Bool :=
  match start?, end? with
  | some s, some e =>
    match listMin (rowDates cached.rows), listMax (rowDates cached.rows) with
    | some mn, some mx => !(decide (mn ≤ s) && decide (e ≤ mx) && !isStale fs path threshold)
    | _, _ => true
  | _, _ => true

/-- `pd.concat([cached, fresh], ignore_index=True)` followed by
`drop_duplicates(subset=["date"]).sort_values("date")`: the column union
keeps the first frame's order, and on a date collision the first — i.e.
cached — row survives. -/
def mergeFrames (cached fresh : DataFrame) : DataFrame :=
  ⟨cached.cols ++ fresh.cols.filter (· ∉ cached.cols),
   sortByDate (dedupByDate (cached.rows ++ fresh.rows))⟩

/-- The fetch branch of `get_all_cached_data_for_range`'s loop body:
fetch-and-save, merge with the cached frame when it was non-empty,
persist the merged frame (write errors caught), return it. -/
def rangeFetchBranch (env : FetchEnv) (fs : FS) (dataDir : String) (t : MetricType)
    (owner repo : String) (cached : DataFrame) : Except PyErr (FS × DataFrame) := do
  let (fs1, fresh) ← fetchAndSave env fs dataDir t owner repo
  let merged := if cached.rows.isEmpty then fresh else mergeFrames cached fresh
  let fs2 := writeCsv fs1 (pathFor dataDir t owner repo) merged
  pure (fs2, merged)

/-- One iteration of `get_all_cached_data_for_range`'s per-type loop:
load the cache if its file exists (an exception from the loader
propagates), decide whether to fetch (force / empty cache / coverage
check), then either fetch-and-merge or return the cached frame. -/
def getRangeOne (env : FetchEnv) (fs : FS) (dataDir : String) (t : MetricType)
    (owner repo : String) (start? end? : Option Nat) (force : Bool)
    (threshold : Nat) : Except PyErr (FS × DataFrame) := do
  let path := pathFor dataDir t owner repo
  let cached ← if (fs path).isSome then getFor fs dataDir t owner repo
               else pure (emptyDF t)
  let needFetch := force || cached.rows.isEmpty
  let needFetch :=
    if !needFetch && !cached.rows.isEmpty then
      needFetch || coverageNeedsFetch cached start? end? fs path threshold
    else needFetch
  if needFetch then rangeFetchBranch env fs dataDir t owner repo cached
  else pure (fs, cached)

/-- `DataManager.get_all_cached_data_for_range`: the per-type loop over
the six metric types; an uncaught exception in one iteration propagates
and aborts the remaining types. -/
def getAllCachedDataForRange (env : FetchEnv) (fs : FS) (dataDir : String)
    (owner repo : String) (start? end? : Option Nat) (force : Bool)
    (threshold : Nat) : Except PyErr (FS × List (MetricType × DataFrame)) :=
  [stars, forks, prs, downloads, issues, contributions].foldlM
    (fun acc t => do
      let (fs', df) ← getRangeOne env acc.1 dataDir t owner repo start? end? force threshold
      pure (fs', acc.2 ++ [(t, df)]))
    (fs, [])

/-- The status record `DataManager.get_data_status` intends to build
(field `exists` is spelled `fileExists`, `exists` being a Lean keyword). -/
structure DataFileInfo where
  path : String
  fileExists : Bool
  ageHours : Option Nat
  stale : Bool
deriving DecidableEq, Repr

/-- The attribute names `DataManager.__init__` sets on the instance:
`data_dir`, `refresh_threshold_hours`, `fetcher`, `loader`, `types`.
No method or initializer ever assigns `type_to_file`. -/
def dataManagerAttrs : List String :=
  ["data_dir", "refresh_threshold_hours", "fetcher", "loader", "types"]

/-- `DataManager.get_data_status`: its first step reads
`self.type_to_file.items()`. The attribute lookup is modelled against
`dataManagerAttrs`; since `type_to_file` is never set, the lookup raises
`AttributeError` before any per-type status record is computed, so the
success branch (returning the would-be records) is unreachable. -/
def getDataStatus (fs : FS) (threshold : Nat) : Except PyErr (List (String × DataFileInfo)) :=
  if "type_to_file" ∈ dataManagerAttrs then
    .ok ((dataManagerAttrs.map fun _ => ("", ⟨"", false, none, true⟩)).filter fun _ =>
      isStale fs "" threshold)
  else
    .error .attributeError

/-! ### Metric Aggregator: the fetchers (`src/fetchers/github_fetcher.py`)

Each REST fetcher's page loop collects a list of normalized event dates
(`BaseFetcher._to_date`, `none` when the timestamp is missing or
unparseable) and then aggregates.  The aggregations are modelled over
the collected items of one delivered response (pagination caps are
upstream-adapter plumbing that no claim depends on). -/

/-- `StarsFetcher` aggregation: daily counts of star events, then a
running cumulative sum (`daily["stars"] = daily["delta"].cumsum()`);
empty input yields the empty schema frame. -/
def starsAggregate (dates : List Nat) : DataFrame :=
  if dates.isEmpty then ⟨["date", "stars"], []⟩
  else ⟨["date", "stars"], cumsum 0 (groupCount dates)⟩

/-- `ForksFetcher` aggregation: identical to stars, column `forks`. -/
def forksAggregate (dates : List Nat) : DataFrame :=
  if dates.isEmpty then ⟨["date", "forks"], []⟩
  else ⟨["date", "forks"], cumsum 0 (groupCount dates)⟩

/-- `PRsFetcher` aggregation: daily counts only (no cumsum). -/
def prsAggregate (dates : List Nat) : DataFrame :=
  if dates.isEmpty then ⟨["date", "pr_count"], []⟩
  else ⟨["date", "pr_count"], groupCount dates⟩

/-- `df.groupby("date", as_index=False)[col].sum().sort_values("date")`:
one row per distinct date carrying the sum of that date's values. -/
def groupSum (rows : List Row) : List Row :=
  sortByDate ((dedupNat (rows.map Prod.fst)).map fun d =>
    (d, ((rows.filter fun r => r.1 = d).map Prod.snd).sum))

/-- A release asset as `DownloadsFetcher.fetch` sees it: normalized
upload date (`none` when missing/unparseable) and its cumulative
`download_count`, a non-negative count in the upstream API. -/
def downloadsAggregate (assets : List (Option Nat × Nat)) : DataFrame :=
  if assets.isEmpty then ⟨["date", "downloads"], []⟩
  else
    ⟨["date", "downloads"],
     cumsum 0 (groupSum (assets.filterMap fun a => a.1.map fun d => (d, (a.2 : Int))))⟩

/-- A raw item of the REST issues listing: whether the payload carries a
`pull_request` key (the endpoint also returns PRs) and its normalized
creation date. -/
structure IssueEvent where
  isPR : Bool
  createdAt : Option Nat
deriving DecidableEq, Repr

/-- The per-item loop of `IssuesFetcher.fetch`: items with
`it.get("pull_request") is not None` are skipped, and of the rest the
parseable creation dates are collected. -/
def issuesCollectDates (items : List IssueEvent) : List Nat :=
  items.filterMap fun it => if it.isPR then none else it.createdAt

/-- `IssuesFetcher.fetch` aggregation: daily counts of the collected
non-PR issue creation dates. -/
def issuesAggregate (items : List IssueEvent) : DataFrame :=
  let dates := issuesCollectDates items
  if dates.isEmpty then ⟨["date", "issues"], []⟩
  else ⟨["date", "issues"], groupCount dates⟩

/-- One page of a GraphQL connection response, as the dict the client
indexes into: connection field name mapped to the node creation dates it
carries, plus `pageInfo.hasNextPage`. -/
structure GqlPage where
  fields : List (String × List (Option Nat))
  hasNextPage : Bool
deriving DecidableEq, Repr

/-- `sg.get(key) or []` on a response page. -/
def gqlGet (page : GqlPage) (key : String) : List (Option Nat) :=
  (((page.fields.find? fun kv => kv.1 = key).map Prod.snd)).getD []

/-- The page loop of `IssuesFetcher.fetch_graphql`: it reads
`sg.get("edges") or []` — although its query selects
`nodes { createdAt }` — collects parseable dates, and continues to the
next page only while `pageInfo.hasNextPage` holds. -/
def issuesGqlCollect : List GqlPage → List Nat
  | [] => []
  | p :: ps =>
    let ds := (gqlGet p "edges").filterMap id
    if p.hasNextPage then ds ++ issuesGqlCollect ps else ds

/-- `IssuesFetcher.fetch_graphql` aggregation over its collected dates. -/
def issuesAggregateGraphql (pages : List GqlPage) : DataFrame :=
  let dates := issuesGqlCollect pages
  if dates.isEmpty then ⟨["date", "issues"], []⟩
  else ⟨["date", "issues"], groupCount dates⟩

/-- The single-page response the GraphQL server gives the issues query
for a repository whose issue events are `items`: per the query text
`issues(...) { nodes { createdAt } pageInfo { endCursor hasNextPage } }`
the data is delivered under the key `nodes` (the `issues` connection
holds only true issues, so PR-flagged events do not appear in it). -/
def issuesGqlResponse (items : List IssueEvent) : GqlPage :=
  ⟨[("nodes", (items.filter fun it => !it.isPR).map fun it => it.createdAt)], false⟩

/-- `GitHubFetcher.fetch_all` restricted to the issues metric: the
`use_graphql` configuration flag selects the transport over the same
underlying repository events. -/
def fetchAllIssues (useGraphql : Bool) (items : List IssueEvent) : DataFrame :=
  if useGraphql then issuesAggregateGraphql [issuesGqlResponse items]
  else issuesAggregate items

/-! ### Helper lemmas about the pandas-operation models -/

theorem rowDates_cons (r : Row) (l : List Row) :
    rowDates (r :: l) = r.1 :: rowDates l := rfl

theorem lookupDate_isSome_iff (l : List Row) (d : Nat) :
    (lookupDate l d).isSome ↔ d ∈ rowDates l := by
  induction l with
  | nil => simp [lookupDate, rowDates]
  | cons r rs ih =>
    rw [rowDates_cons, List.mem_cons]
    by_cases h : r.1 = d
    · simp [lookupDate, h]
    · have h' : ¬ d = r.1 := fun hh => h hh.symm
      simp [lookupDate, h, h', ih]

theorem lookupDate_eq_some_mem {l : List Row} {d : Nat} {v : Int}
    (h : lookupDate l d = some v) : (d, v) ∈ l := by
  induction l with
  | nil => simp [lookupDate] at h
  | cons r rs ih =>
    by_cases hr : r.1 = d
    · rw [lookupDate, if_pos hr] at h
      have : r = (d, v) := by
        obtain ⟨r1, r2⟩ := r
        simp only at hr
        simp only [Option.some.injEq] at h
        simp [hr, h]
      exact this ▸ List.mem_cons_self ..
    · rw [lookupDate, if_neg hr] at h
      exact List.mem_cons_of_mem _ (ih h)

theorem lookupDate_append_of_mem {a : List Row} (b : List Row) {d : Nat}
    (h : d ∈ rowDates a) : lookupDate (a ++ b) d = lookupDate a d := by
  induction a with
  | nil => simp [rowDates] at h
  | cons r rs ih =>
    by_cases hr : r.1 = d
    · simp [lookupDate, hr]
    · rw [rowDates_cons, List.mem_cons] at h
      rcases h with h | h
      · exact absurd h.symm hr
      · simp [lookupDate, hr, ih h]

theorem dedupByDateAux_mem {l : List Row} : ∀ {seen : List Nat} {d : Nat} {v : Int},
    (d, v) ∈ dedupByDateAux seen l → d ∉ seen ∧ lookupDate l d = some v := by
  induction l with
  | nil => intro seen d v h; simp [dedupByDateAux] at h
  | cons r rs ih =>
    intro seen d v h
    by_cases hs : r.1 ∈ seen
    · rw [dedupByDateAux, if_pos hs] at h
      obtain ⟨hns, hl⟩ := ih h
      have hrd : ¬ r.1 = d := fun he => hns (he ▸ hs)
      exact ⟨hns, by rw [lookupDate, if_neg hrd]; exact hl⟩
    · rw [dedupByDateAux, if_neg hs] at h
      rcases List.mem_cons.mp h with h | h
      · have hd : d = r.1 := congrArg Prod.fst h
        have hv : v = r.2 := congrArg Prod.snd h
        subst hd; subst hv
        exact ⟨hs, by rw [lookupDate, if_pos rfl]⟩
      · obtain ⟨hns, hl⟩ := ih h
        have hd : d ∉ seen := fun hh => hns (List.mem_cons_of_mem _ hh)
        have hrd : ¬ r.1 = d := fun he => hns (he ▸ List.mem_cons_self ..)
        exact ⟨hd, by rw [lookupDate, if_neg hrd]; exact hl⟩

theorem dedupByDateAux_nodup (l : List Row) : ∀ seen : List Nat,
    (rowDates (dedupByDateAux seen l)).Nodup ∧
      ∀ d ∈ rowDates (dedupByDateAux seen l), d ∉ seen := by
  induction l with
  | nil => intro seen; simp [dedupByDateAux, rowDates]
  | cons r rs ih =>
    intro seen
    by_cases hs : r.1 ∈ seen
    · rw [dedupByDateAux, if_pos hs]
      exact ih seen
    · obtain ⟨hn, hd⟩ := ih (r.1 :: seen)
      rw [dedupByDateAux, if_neg hs, rowDates_cons]
      refine ⟨List.nodup_cons.mpr ⟨fun hmem => ?_, hn⟩, fun d hdm => ?_⟩
      · exact hd r.1 hmem (List.mem_cons_self ..)
      · rcases List.mem_cons.mp hdm with h | h
        · exact h ▸ hs
        · exact fun hh => hd d h (List.mem_cons_of_mem _ hh)

theorem dedupByDate_nodup (l : List Row) : DatesNodup (dedupByDate l) :=
  (dedupByDateAux_nodup l []).1

theorem dedupByDate_lookup {l : List Row} {d : Nat} {v : Int}
    (h : (d, v) ∈ dedupByDate l) : lookupDate l d = some v :=
  (dedupByDateAux_mem h).2

theorem dedupByDateAux_of_nodup {l : List Row} : ∀ {seen : List Nat},
    (rowDates l).Nodup → (∀ d ∈ rowDates l, d ∉ seen) →
    dedupByDateAux seen l = l := by
  induction l with
  | nil => intro seen _ _; rfl
  | cons r rs ih =>
    intro seen hn hdisj
    rw [rowDates_cons, List.nodup_cons] at hn
    have hs : r.1 ∉ seen :=
      hdisj r.1 (by rw [rowDates_cons]; exact List.mem_cons_self ..)
    have hrec : ∀ d ∈ rowDates rs, d ∉ r.1 :: seen := by
      intro d hd
      rw [List.mem_cons, not_or]
      refine ⟨fun he => hn.1 (he ▸ hd), ?_⟩
      exact hdisj d (by rw [rowDates_cons]; exact List.mem_cons_of_mem _ hd)
    rw [dedupByDateAux, if_neg hs, ih hn.2 hrec]

theorem dedupByDate_of_nodup {l : List Row} (h : DatesNodup l) :
    dedupByDate l = l :=
  dedupByDateAux_of_nodup h (by simp)

theorem insertByDate_perm (r : Row) (l : List Row) :
    List.Perm (insertByDate r l) (r :: l) := by
  induction l with
  | nil => exact List.Perm.refl _
  | cons x xs ih =>
    by_cases h : r.1 ≤ x.1
    · rw [insertByDate, if_pos h]
    · rw [insertByDate, if_neg h]
      exact (List.Perm.cons x ih).trans (List.Perm.swap r x xs)

theorem sortByDate_perm (l : List Row) : List.Perm (sortByDate l) l := by
  induction l with
  | nil => exact List.Perm.refl _
  | cons r rs ih =>
    exact (insertByDate_perm r (sortByDate rs)).trans (List.Perm.cons r ih)

theorem insertByDate_sorted {l : List Row} (r : Row) (h : DatesSorted l) :
    DatesSorted (insertByDate r l) := by
  induction l with
  | nil => simp [insertByDate, DatesSorted]
  | cons x xs ih =>
    by_cases hle : r.1 ≤ x.1
    · rw [insertByDate, if_pos hle]
      refine List.pairwise_cons.mpr ⟨?_, h⟩
      intro y hy
      rcases List.mem_cons.mp hy with hxy | hxy
      · exact hxy ▸ hle
      · exact le_trans hle ((List.pairwise_cons.mp h).1 y hxy)
    · rw [insertByDate, if_neg hle]
      obtain ⟨hx, hxs⟩ := List.pairwise_cons.mp h
      refine List.pairwise_cons.mpr ⟨?_, ih hxs⟩
      intro y hy
      rcases List.mem_cons.mp ((insertByDate_perm r xs).mem_iff.mp hy) with hyr | hyl
      · exact hyr ▸ le_of_not_le hle
      · exact hx y hyl

theorem sortByDate_sorted (l : List Row) : DatesSorted (sortByDate l) := by
  induction l with
  | nil => simp [sortByDate, DatesSorted]
  | cons r rs ih => exact insertByDate_sorted r ih

theorem sortByDate_of_sorted {l : List Row} (h : DatesSorted l) :
    sortByDate l = l := by
  induction l with
  | nil => rfl
  | cons r rs ih =>
    obtain ⟨hr, hrs⟩ := List.pairwise_cons.mp h
    rw [sortByDate, ih hrs]
    cases rs with
    | nil => rfl
    | cons x xs => rw [insertByDate, if_pos (hr x (List.mem_cons_self ..))]

theorem sortByDate_nodup {l : List Row} (h : DatesNodup l) :
    DatesNodup (sortByDate l) := by
  have hp : List.Perm (rowDates (sortByDate l)) (rowDates l) :=
    (sortByDate_perm l).map Prod.fst
  exact hp.nodup_iff.mpr h

theorem mem_dedupNatAux {l : List Nat} : ∀ {seen : List Nat} {x : Nat},
    x ∈ dedupNatAux seen l ↔ x ∈ l ∧ x ∉ seen := by
  induction l with
  | nil => intro seen x; simp [dedupNatAux]
  | cons d ds ih =>
    intro seen x
    by_cases hs : d ∈ seen
    · rw [dedupNatAux, if_pos hs, ih, List.mem_cons]
      constructor
      · exact fun h => ⟨Or.inr h.1, h.2⟩
      · rintro ⟨h | h, hns⟩
        · exact absurd (h ▸ hs) hns
        · exact ⟨h, hns⟩
    · rw [dedupNatAux, if_neg hs]
      simp only [List.mem_cons, ih, not_or]
      constructor
      · rintro (rfl | ⟨h, _, hns⟩)
        · exact ⟨Or.inl rfl, hs⟩
        · exact ⟨Or.inr h, hns⟩
      · rintro ⟨rfl | h, hns⟩
        · exact Or.inl rfl
        · by_cases hxd : x = d
          · exact Or.inl hxd
          · exact Or.inr ⟨h, hxd, hns⟩

theorem mem_dedupNat {l : List Nat} {x : Nat} : x ∈ dedupNat l ↔ x ∈ l := by
  rw [dedupNat, mem_dedupNatAux]
  simp

/-- Looking up a date in a sorted keyed map `d ↦ f d` built over the
distinct keys of a list. -/
theorem lookupDate_sortByDate_map (l : List Nat) (f : Nat → Int) (x : Nat) :
    lookupDate (sortByDate (l.map fun d => (d, f d))) x =
      if x ∈ l then some (f x) else none := by
  set m := l.map fun d => (d, f d) with hm
  have hperm : List.Perm (sortByDate m) m := sortByDate_perm m
  have hdates : rowDates m = l := by
    rw [hm, rowDates, List.map_map]
    have hcomp : (Prod.fst ∘ fun d : Nat => (d, f d)) = id := rfl
    rw [hcomp, List.map_id]
  by_cases hx : x ∈ l
  · have hx' : x ∈ rowDates m := by rw [hdates]; exact hx
    have hxd : x ∈ rowDates (sortByDate m) :=
      ((hperm.map Prod.fst).mem_iff).mpr hx'
    obtain ⟨v, hv⟩ := Option.isSome_iff_exists.mp
      ((lookupDate_isSome_iff _ _).mpr hxd)
    have hmem : (x, v) ∈ m := hperm.mem_iff.mp (lookupDate_eq_some_mem hv)
    obtain ⟨d, hd, hdx⟩ := List.mem_map.mp hmem
    have hxd' : d = x := congrArg Prod.fst hdx
    have hv' : f d = v := congrArg Prod.snd hdx
    rw [if_pos hx, hv, ← hv', hxd']
  · have hxd : x ∉ rowDates (sortByDate m) := by
      intro hmem
      exact hx (by rw [← hdates]; exact ((hperm.map Prod.fst).mem_iff).mp hmem)
    rw [if_neg hx]
    cases hcase : lookupDate (sortByDate m) x with
    | none => rfl
    | some v =>
      exact absurd ((lookupDate_isSome_iff _ _).mp (by rw [hcase]; rfl)) hxd

theorem dedupNat_nodup (l : List Nat) : (dedupNat l).Nodup := by
  suffices h : ∀ seen, (dedupNatAux seen l).Nodup by exact h []
  induction l with
  | nil => intro seen; simp [dedupNatAux]
  | cons d ds ih =>
    intro seen
    by_cases hs : d ∈ seen
    · rw [dedupNatAux, if_pos hs]; exact ih seen
    · rw [dedupNatAux, if_neg hs]
      refine List.nodup_cons.mpr ⟨fun hmem => ?_, ih (d :: seen)⟩
      exact (mem_dedupNatAux.mp hmem).2 (List.mem_cons_self ..)

/-- The value `groupCount` associates to each date: the date's
multiplicity in the input, absent when the date never occurs. -/
theorem lookupDate_groupCount (dates : List Nat) (x : Nat) :
    lookupDate (groupCount dates) x =
      if x ∈ dates then some ((dates.count x : Int)) else none := by
  rw [groupCount, lookupDate_sortByDate_map]
  by_cases hx : x ∈ dates
  · rw [if_pos (mem_dedupNat.mpr hx), if_pos hx]
  · rw [if_neg (fun h => hx (mem_dedupNat.mp h)), if_neg hx]

theorem cumsum_values_mono {l : List Row} (h : ∀ r ∈ l, 0 ≤ r.2) :
    ∀ acc : Int, ValuesMono (cumsum acc l) := by
  induction l with
  | nil => intro acc; simp [cumsum, ValuesMono]
  | cons r rs ih =>
    intro acc
    obtain ⟨d, v⟩ := r
    rw [cumsum]
    refine List.chain'_cons'.mpr ⟨?_, ih (fun x hx => h x (List.mem_cons_of_mem _ hx)) (acc + v)⟩
    intro y hy
    cases rs with
    | nil => simp [cumsum] at hy
    | cons s ss =>
      obtain ⟨d2, v2⟩ := s
      rw [cumsum] at hy
      simp only [List.head?_cons, Option.mem_def, Option.some.injEq] at hy
      subst hy
      have : (0 : Int) ≤ v2 := h (d2, v2) (List.mem_cons_of_mem _ (List.mem_cons_self ..))
      simp only
      linarith

theorem mem_groupCount_nonneg {dates : List Nat} {r : Row}
    (h : r ∈ groupCount dates) : 0 ≤ r.2 := by
  have hmem : r ∈ (dedupNat dates).map fun d => (d, (dates.count d : Int)) :=
    (sortByDate_perm _).mem_iff.mp h
  obtain ⟨d, _, hdx⟩ := List.mem_map.mp hmem
  have : ((dates.count d : Int)) = r.2 := congrArg Prod.snd hdx
  rw [← this]
  exact Int.ofNat_nonneg _

theorem issues_count_bridge (items : List IssueEvent) (d : Nat) :
    (items.filter fun it => !it.isPR && decide (it.createdAt = some d)).length =
      (issuesCollectDates items).count d := by
  induction items with
  | nil => rfl
  | cons it rest ih =>
    cases hpr : it.isPR with
    | true =>
      simp only [issuesCollectDates, List.filterMap_cons, hpr, List.filter_cons,
        Bool.not_true, Bool.false_and]
      simpa [issuesCollectDates] using ih
    | false =>
      cases hca : it.createdAt with
      | none =>
        simp only [issuesCollectDates, List.filterMap_cons, hpr, hca, List.filter_cons,
          Bool.not_false, Bool.true_and]
        simpa [issuesCollectDates] using ih
      | some t =>
        by_cases hdt : t = d
        · subst hdt
          simp only [issuesCollectDates, List.filterMap_cons, hpr, hca, List.filter_cons,
            Bool.not_false, Bool.true_and, List.count_cons]
          simp only [issuesCollectDates] at ih
          simp [ih]
        · simp only [issuesCollectDates] at ih ⊢
          simp [List.filterMap_cons, hpr, hca, List.filter_cons, hdt, ih, List.count_cons]

/-- C7: for every input sequence of raw issue events, PR-flagged events
are excluded before daily counting: the issues series holds, at each
date, exactly the number of non-PR-flagged events created on that date
(no row when that number is zero). -/
theorem issues_daily_count_excludes_prs (items : List IssueEvent) (d : Nat) :
    lookupDate (issuesAggregate items).rows d =
      if (items.filter fun it => !it.isPR && decide (it.createdAt = some d)).length = 0
      then none
      else some ((items.filter fun it => !it.isPR && decide (it.createdAt = some d)).length : Int) := by
  rw [issues_count_bridge]
  show lookupDate (issuesAggregate items).rows d = _
  by_cases hempty : (issuesCollectDates items).isEmpty
  · have hnil : issuesCollectDates items = [] := List.isEmpty_iff.mp hempty
    have hrows : (issuesAggregate items).rows = [] := by
      simp [issuesAggregate, hempty]
    rw [hrows, hnil]
    simp [lookupDate]
  · have hrows : (issuesAggregate items).rows = groupCount (issuesCollectDates items) := by
      simp [issuesAggregate, hempty]
    rw [hrows, lookupDate_groupCount]
    by_cases hmem : d ∈ issuesCollectDates items
    · have hpos : 0 < (issuesCollectDates items).count d := List.count_pos_iff.mpr hmem
      rw [if_pos hmem, if_neg (Nat.pos_iff_ne_zero.mp hpos)]
    · have hzero : (issuesCollectDates items).count d = 0 := by
        by_contra hc
        exact hmem (List.count_pos_iff.mp (Nat.pos_of_ne_zero hc))
      rw [if_neg hmem, hzero]
      simp

/-- C1 (amended): the merged frame the range-aware retrieval persists
and returns has at most one row per date and is sorted by date, but on
a date present in both inputs the surviving row carries the value the
cached series held at that date (`drop_duplicates` keeps the first of
the concatenated rows, and the cached frame comes first). -/
theorem merge_dedup_sorted_cached_wins (c f : DataFrame) (d : Nat) (v : Int)
    (hc : d ∈ rowDates c.rows) (hf : d ∈ rowDates f.rows)
    (hm : (d, v) ∈ (mergeFrames c f).rows) :
    DatesNodup (mergeFrames c f).rows ∧ DatesSorted (mergeFrames c f).rows ∧
      lookupDate c.rows d = some v := by
  refine ⟨sortByDate_nodup (dedupByDate_nodup _), sortByDate_sorted _, ?_⟩
  have h1 : (d, v) ∈ dedupByDate (c.rows ++ f.rows) :=
    (sortByDate_perm _).mem_iff.mp hm
  have h2 : lookupDate (c.rows ++ f.rows) d = some v := dedupByDate_lookup h1
  rw [lookupDate_append_of_mem _ hc] at h2
  exact h2

theorem merge_dedup_sorted_cached_wins_witness :
    DatesNodup (mergeFrames ⟨["date", "stars"], [(0, 1)]⟩ ⟨["date", "stars"], [(0, 2)]⟩).rows ∧
      DatesSorted (mergeFrames ⟨["date", "stars"], [(0, 1)]⟩ ⟨["date", "stars"], [(0, 2)]⟩).rows ∧
      lookupDate [(0, 1)] 0 = some 1 :=
  merge_dedup_sorted_cached_wins ⟨["date", "stars"], [(0, 1)]⟩ ⟨["date", "stars"], [(0, 2)]⟩
    0 1 (by decide) (by decide) (by decide)

/-- C1 counterexample: cached row `(0, 1)` collides with freshly fetched
row `(0, 2)`; the merged result keeps the cached value 1, not the fresh
value 2 as the claim asserts. -/
theorem merge_fresh_value_wins_cex :
    (mergeFrames ⟨["date", "stars"], [(0, 1)]⟩ ⟨["date", "stars"], [(0, 2)]⟩).rows = [(0, 1)] ∧
      (mergeFrames ⟨["date", "stars"], [(0, 1)]⟩ ⟨["date", "stars"], [(0, 2)]⟩).rows ≠ [(0, 2)] := by
  constructor
  · decide
  · decide

/-- C9: `get_data_status` reads `self.type_to_file`, an attribute no
code path ever sets, so every call raises `AttributeError` instead of
returning the per-metric status records the claim describes. -/
theorem get_data_status_raises (fs : FS) (threshold : Nat) :
    getDataStatus fs threshold = .error .attributeError := by
  rw [getDataStatus, if_neg]
  decide

/-! ### Reduction lemmas for the orchestrator's range-aware loop body -/

theorem getRangeOne_force
    (env : FetchEnv) (fs : FS) (dataDir : String) (t : MetricType)
    (owner repo : String) (s? e? : Option Nat) (threshold : Nat)
    (file : FileData) (cached : DataFrame)
    (hfile : fs (pathFor dataDir t owner repo) = some file)
    (hload : getFor fs dataDir t owner repo = .ok cached) :
    getRangeOne env fs dataDir t owner repo s? e? true threshold =
      rangeFetchBranch env fs dataDir t owner repo cached := by
  unfold getRangeOne
  simp [hfile, hload, Bind.bind, Except.bind]

theorem getRangeOne_fresh_hit
    (env : FetchEnv) (fs : FS) (dataDir : String) (t : MetricType)
    (owner repo : String) (s e : Nat) (threshold : Nat)
    (file : FileData) (cached : DataFrame) (mn mx : Nat)
    (hfile : fs (pathFor dataDir t owner repo) = some file)
    (hload : getFor fs dataDir t owner repo = .ok cached)
    (hne : cached.rows ≠ [])
    (hmn : listMin (rowDates cached.rows) = some mn)
    (hmx : listMax (rowDates cached.rows) = some mx)
    (hcovs : mn ≤ s) (hcove : e ≤ mx)
    (hage : file.age ≤ threshold) :
    getRangeOne env fs dataDir t owner repo (some s) (some e) false threshold =
      .ok (fs, cached) := by
  have hE : cached.rows.isEmpty = false := by
    cases hcr : cached.rows with
    | nil => exact absurd hcr hne
    | cons a l => rfl
  have hstale : isStale fs (pathFor dataDir t owner repo) threshold = false := by
    rw [isStale, hfile]
    simp
    omega
  unfold getRangeOne
  simp [hfile, hload, Bind.bind, Except.bind, hE, coverageNeedsFetch, hmn, hmx,
    hstale, hcovs, hcove, Pure.pure, Except.pure]

theorem getRangeOne_range_gap
    (env : FetchEnv) (fs : FS) (dataDir : String) (t : MetricType)
    (owner repo : String) (s e : Nat) (threshold : Nat)
    (file : FileData) (cached : DataFrame) (mn mx : Nat)
    (hfile : fs (pathFor dataDir t owner repo) = some file)
    (hload : getFor fs dataDir t owner repo = .ok cached)
    (hne : cached.rows ≠ [])
    (hmn : listMin (rowDates cached.rows) = some mn)
    (hmx : listMax (rowDates cached.rows) = some mx)
    (hgap : ¬ (mn ≤ s ∧ e ≤ mx)) :
    getRangeOne env fs dataDir t owner repo (some s) (some e) false threshold =
      rangeFetchBranch env fs dataDir t owner repo cached := by
  have hE : cached.rows.isEmpty = false := by
    cases hcr : cached.rows with
    | nil => exact absurd hcr hne
    | cons a l => rfl
  have hcov : coverageNeedsFetch cached (some s) (some e) fs
      (pathFor dataDir t owner repo) threshold = true := by
    simp only [coverageNeedsFetch, hmn, hmx]
    rcases not_and_or.mp hgap with h | h
    · simp [h]
    · simp [h]
  unfold getRangeOne
  simp [hfile, hload, Bind.bind, Except.bind, hE, hcov]

/-- C3: without `force_refresh`, a non-empty cached series whose date
span covers the requested range and whose file age is within the
threshold is returned unmodified with no upstream fetch (the result does
not depend on the fetch environment and the filesystem is unchanged);
and whenever the span does not fully cover the range, the fetch branch
runs regardless of the file's age. -/
theorem range_fresh_hit_and_range_gap :
    (∀ (env : FetchEnv) (fs : FS) (dataDir : String) (t : MetricType)
       (owner repo : String) (s e threshold : Nat) (file : FileData)
       (cached : DataFrame) (mn mx : Nat),
       fs (pathFor dataDir t owner repo) = some file →
       getFor fs dataDir t owner repo = .ok cached →
       cached.rows ≠ [] →
       listMin (rowDates cached.rows) = some mn →
       listMax (rowDates cached.rows) = some mx →
       mn ≤ s → e ≤ mx → file.age ≤ threshold →
       getRangeOne env fs dataDir t owner repo (some s) (some e) false threshold =
         .ok (fs, cached)) ∧
    (∀ (env : FetchEnv) (fs : FS) (dataDir : String) (t : MetricType)
       (owner repo : String) (s e threshold : Nat) (file : FileData)
       (cached : DataFrame) (mn mx : Nat),
       fs (pathFor dataDir t owner repo) = some file →
       getFor fs dataDir t owner repo = .ok cached →
       cached.rows ≠ [] →
       listMin (rowDates cached.rows) = some mn →
       listMax (rowDates cached.rows) = some mx →
       ¬ (mn ≤ s ∧ e ≤ mx) →
       getRangeOne env fs dataDir t owner repo (some s) (some e) false threshold =
         rangeFetchBranch env fs dataDir t owner repo cached) := by
  constructor
  · intro env fs dataDir t owner repo s e threshold file cached mn mx h1 h2 h3 h4 h5 h6 h7 h8
    exact getRangeOne_fresh_hit env fs dataDir t owner repo s e threshold file cached mn mx
      h1 h2 h3 h4 h5 h6 h7 h8
  · intro env fs dataDir t owner repo s e threshold file cached mn mx h1 h2 h3 h4 h5 h6
    exact getRangeOne_range_gap env fs dataDir t owner repo s e threshold file cached mn mx
      h1 h2 h3 h4 h5 h6

def c3fs : FS := fun p =>
  if p = pathFor "data" stars "o" "r" then
    some ⟨0, some ⟨["date", "stars"], [(some 1, 4), (some 2, 6)]⟩⟩
  else none

def c3env : FetchEnv := ⟨fun t => .ok (emptyDF t)⟩

theorem range_fresh_hit_and_range_gap_witness :
    getRangeOne c3env c3fs "data" stars "o" "r" (some 1) (some 2) false 24 =
      .ok (c3fs, ⟨["date", "stars"], [(1, 4), (2, 6)]⟩) ∧
    getRangeOne c3env c3fs "data" stars "o" "r" (some 1) (some 5) false 24 =
      rangeFetchBranch c3env c3fs "data" stars "o" "r" ⟨["date", "stars"], [(1, 4), (2, 6)]⟩ :=
  ⟨range_fresh_hit_and_range_gap.1 c3env c3fs "data" stars "o" "r" 1 2 24
      ⟨0, some ⟨["date", "stars"], [(some 1, 4), (some 2, 6)]⟩⟩
      ⟨["date", "stars"], [(1, 4), (2, 6)]⟩ 1 2
      (by rfl) (by rfl) (by decide) (by rfl) (by rfl)
      (by decide) (by decide) (by decide),
   range_fresh_hit_and_range_gap.2 c3env c3fs "data" stars "o" "r" 1 5 24
      ⟨0, some ⟨["date", "stars"], [(some 1, 4), (some 2, 6)]⟩⟩
      ⟨["date", "stars"], [(1, 4), (2, 6)]⟩ 1 2
      (by rfl) (by rfl) (by decide) (by rfl) (by rfl)
      (by decide)⟩

theorem filter_mem_self (l : List String) : (l.filter fun c => decide (c ∈ l)) = l :=
  List.filter_eq_self.mpr fun a ha => by simpa using ha

theorem filter_not_mem_self (l : List String) : (l.filter fun c => decide (c ∉ l)) = [] :=
  List.filter_eq_nil_iff.mpr fun a ha => by simpa using ha

def c2fs : FS := fun p =>
  if p = pathFor "data" stars "o" "r" then
    some ⟨0, some ⟨["date", "stars"], [(some 1, 4), (some 2, 6)]⟩⟩
  else none

def c2env : FetchEnv := ⟨fun t => .ok (emptyDF t)⟩

/-- C2 counterexample: with a non-empty cached stars series, a forced
refresh through `get_data` in which the adapter returns an empty frame
returns the empty frame, not the pre-refresh cached series. -/
theorem forced_refresh_empty_cex :
    getFor c2fs "data" stars "o" "r" = .ok ⟨["date", "stars"], [(1, 4), (2, 6)]⟩ ∧
    (getData c2env c2fs "data" stars "o" "r" true 24).map Prod.snd
      = .ok ⟨["date", "stars"], []⟩ := ⟨by rfl, by rfl⟩

/-- C2 (amended): on the range-aware path
(`get_all_cached_data_for_range`) the degrade-to-stale behaviour does
hold: a forced refresh whose fetch succeeds with an empty frame returns
the pre-refresh cached series; but `get_data` (and thus
`get_all_cached_data`) returns the fetch result directly, so there the
result degrades to empty. -/
theorem range_refresh_empty_fetch_returns_cached
    (env : FetchEnv) (fs : FS) (dataDir : String) (t : MetricType)
    (owner repo : String) (s? e? : Option Nat) (threshold : Nat)
    (file : FileData) (cached fresh : DataFrame)
    (hfile : fs (pathFor dataDir t owner repo) = some file)
    (hload : getFor fs dataDir t owner repo = .ok cached)
    (hne : cached.rows ≠ [])
    (hcols : cached.cols = expectedCols t)
    (hnodup : DatesNodup cached.rows)
    (hsorted : DatesSorted cached.rows)
    (hfetch : env.fetch t = .ok fresh)
    (hfcols : fresh.cols = expectedCols t)
    (hfrows : fresh.rows = []) :
    (getRangeOne env fs dataDir t owner repo s? e? true threshold).map Prod.snd =
      .ok cached := by
  rw [getRangeOne_force env fs dataDir t owner repo s? e? threshold file cached hfile hload]
  have hE : cached.rows.isEmpty = false := by
    cases hcr : cached.rows with
    | nil => exact absurd hcr hne
    | cons a l => rfl
  have hmerge : mergeFrames cached ⟨(expectedCols t).filter (· ∈ fresh.cols), fresh.rows⟩
      = cached := by
    obtain ⟨ccols, crows⟩ := cached
    simp only at hcols hnodup hsorted
    rw [mergeFrames]
    simp only [hfcols, hfrows, hcols, List.append_nil]
    rw [filter_mem_self, filter_not_mem_self, List.append_nil,
      dedupByDate_of_nodup hnodup, sortByDate_of_sorted hsorted]
  unfold rangeFetchBranch fetchAndSave
  simp [hfetch, Bind.bind, Except.bind, hE, hmerge, Pure.pure, Except.pure, Except.map]

theorem range_refresh_empty_fetch_returns_cached_witness :
    (getRangeOne c2env c2fs "data" stars "o" "r" (some 1) (some 2) true 24).map Prod.snd
      = .ok ⟨["date", "stars"], [(1, 4), (2, 6)]⟩ :=
  range_refresh_empty_fetch_returns_cached c2env c2fs "data" stars "o" "r"
    (some 1) (some 2) 24 ⟨0, some ⟨["date", "stars"], [(some 1, 4), (some 2, 6)]⟩⟩
    ⟨["date", "stars"], [(1, 4), (2, 6)]⟩ (emptyDF stars)
    (by rfl) (by rfl) (by decide) (by rfl)
    (by unfold DatesNodup; decide) (by unfold DatesSorted; decide)
    (by rfl) (by rfl) (by rfl)

def c4env : FetchEnv := ⟨fun _ => .error (.runtimeError "boom")⟩

/-- C4 counterexample: in a batch over the six metric types where the
first metric's fetch raises, the whole batch raises — no other metric is
resolved and no empty-schema replacement happens. -/
theorem batch_abort_cex :
    getAllCachedDataForRange c4env (fun _ => none) "data" "o" "r" (some 0) (some 1) false 24
      = .error (.runtimeError "boom") := by rfl

/-- C4 (amended): an exception raised while one metric is being
resolved (here: the fetch of the stars metric) propagates out of
`get_all_cached_data_for_range` and aborts the whole batch; only
exceptions inside the per-metric date-coverage check are caught. -/
theorem batch_aborts_on_fetch_error
    (env : FetchEnv) (fs : FS) (dataDir : String) (owner repo : String)
    (s? e? : Option Nat) (threshold : Nat) (err : PyErr)
    (hnofile : fs (pathFor dataDir stars owner repo) = none)
    (herr : env.fetch stars = .error err) :
    getAllCachedDataForRange env fs dataDir owner repo s? e? false threshold = .error err := by
  unfold getAllCachedDataForRange
  rw [List.foldlM_cons]
  have hone : getRangeOne env fs dataDir stars owner repo s? e? false threshold = .error err := by
    unfold getRangeOne rangeFetchBranch fetchAndSave
    simp [hnofile, herr, Bind.bind, Except.bind, Pure.pure, Except.pure, emptyDF]
  simp [hone, Bind.bind, Except.bind]

theorem batch_aborts_on_fetch_error_witness :
    getAllCachedDataForRange ⟨fun _ => .error (.runtimeError "down")⟩ (fun _ => none)
        "d2" "a" "b" (some 3) (some 4) false 48 = .error (.runtimeError "down") :=
  batch_aborts_on_fetch_error ⟨fun _ => .error (.runtimeError "down")⟩ (fun _ => none)
    "d2" "a" "b" (some 3) (some 4) 48 (.runtimeError "down") (by rfl) (by rfl)

def c5fs : FS := fun p =>
  if p = pathFor "data" stars "o" "r" then
    some ⟨0, some ⟨["date", "stars"], [(some 0, 10), (some 1, 12)]⟩⟩
  else none

def c5env : FetchEnv :=
  ⟨fun t => if t = stars then .ok ⟨["date", "stars"], [(0, 3), (1, 5), (2, 6)]⟩
            else .ok (emptyDF t)⟩

/-- C5 counterexample: a cumulative stars series produced by merging a
cached series with a freshly fetched one is returned with values
10, 12, 6 — not non-decreasing, because the cached value wins the date
collisions while the later fresh value is smaller. -/
theorem merged_series_not_mono_cex :
    (getRangeOne c5env c5fs "data" stars "o" "r" (some 0) (some 2) true 24).map Prod.snd
      = .ok ⟨["date", "stars"], [(0, 10), (1, 12), (2, 6)]⟩ ∧
      ¬ ValuesMono [((0 : Nat), (10 : Int)), (1, 12), (2, 6)] := by
  constructor
  · rfl
  · intro hmono
    have h12 := (List.chain'_cons.mp (List.chain'_cons.mp hmono).2).1
    simp only at h12
    omega

theorem mem_groupSum_nonneg {rows : List Row} (hpos : ∀ r ∈ rows, 0 ≤ r.2) {r : Row}
    (h : r ∈ groupSum rows) : 0 ≤ r.2 := by
  have hmem := (sortByDate_perm _).mem_iff.mp h
  obtain ⟨d, _, hdx⟩ := List.mem_map.mp hmem
  have hv : ((rows.filter fun x => decide (x.1 = d)).map Prod.snd).sum = r.2 :=
    congrArg Prod.snd hdx
  rw [← hv]
  refine List.sum_nonneg ?_
  intro x hx
  obtain ⟨y, hy, rfl⟩ := List.mem_map.mp hx
  exact hpos y (List.mem_filter.mp hy).1

/-- C5 (amended): every freshly aggregated cumulative series — stars,
forks, downloads — has a non-decreasing value column in date order (a
cumulative sum of non-negative daily increments); merged series,
however, need not be monotone. -/
theorem cumulative_aggregates_mono (dates : List Nat) (assets : List (Option Nat × Nat)) :
    ValuesMono (starsAggregate dates).rows ∧ ValuesMono (forksAggregate dates).rows ∧
      ValuesMono (downloadsAggregate assets).rows := by
  refine ⟨?_, ?_, ?_⟩
  · by_cases h : dates.isEmpty
    · simp [starsAggregate, h, ValuesMono]
    · simp only [starsAggregate, Bool.not_eq_true] at *
      simp only [h, Bool.false_eq_true, if_false]
      exact cumsum_values_mono (fun r hr => mem_groupCount_nonneg hr) 0
  · by_cases h : dates.isEmpty
    · simp [forksAggregate, h, ValuesMono]
    · simp only [forksAggregate, Bool.not_eq_true] at *
      simp only [h, Bool.false_eq_true, if_false]
      exact cumsum_values_mono (fun r hr => mem_groupCount_nonneg hr) 0
  · by_cases h : assets.isEmpty
    · simp [downloadsAggregate, h, ValuesMono]
    · simp only [downloadsAggregate, Bool.not_eq_true] at *
      simp only [h, Bool.false_eq_true, if_false]
      refine cumsum_values_mono (fun r hr => ?_) 0
      refine mem_groupSum_nonneg (fun x hx => ?_) hr
      obtain ⟨a, ha, hax⟩ := List.mem_filterMap.mp hx
      obtain ⟨dd, hdd, hfx⟩ := Option.map_eq_some'.mp hax
      rw [← hfx]
      exact Int.ofNat_nonneg _

def c6fs : FS := fun p =>
  if p = pathFor "data" stars "o" "r" then some ⟨0, none⟩ else none

/-- C6 counterexample: when the repository-specific cache file exists
but its content cannot be parsed as CSV, `get_for`'s `pd.read_csv` call
raises — the read does not return an empty-schema series. -/
theorem corrupt_cache_read_raises_cex :
    getFor c6fs "data" stars "o" "r" = .error .parseError := by rfl

/-- C6 (amended): a cache read over nonexistent files, or over files
that parse but miss the required columns, returns an empty series whose
columns are exactly `date` plus the metric's value column and does not
raise; a file the CSV parser rejects, however, makes the read raise. -/
theorem cache_read_empty_schema_cases :
    (∀ (fs : FS) (dataDir : String) (t : MetricType) (owner repo : String),
       fs (pathFor dataDir t owner repo) = none →
       fs (pathFor dataDir t) = none →
       getFor fs dataDir t owner repo = .ok ⟨expectedCols t, []⟩) ∧
    (∀ (fs : FS) (dataDir : String) (t : MetricType) (owner repo : String)
       (file gfile : FileData) (tab gtab : RawTable),
       fs (pathFor dataDir t owner repo) = some file →
       file.parsed = some tab →
       colsSubset (expectedCols t) tab.cols = false →
       fs (pathFor dataDir t) = some gfile →
       gfile.parsed = some gtab →
       colsSubset (expectedCols t) gtab.cols = false →
       getFor fs dataDir t owner repo = .ok ⟨expectedCols t, []⟩) := by
  constructor
  · intro fs dataDir t owner repo hnorepo hnogen
    unfold getFor getForGeneric
    simp [hnorepo, hnogen, Pure.pure, Except.pure]
  · intro fs dataDir t owner repo file gfile tab gtab hfile htab hcols hgfile hgtab hgcols
    unfold getFor getForGeneric readCsv
    simp [hfile, htab, hcols, hgfile, hgtab, hgcols, Bind.bind, Except.bind,
      Pure.pure, Except.pure]

def c6afs : FS := fun p =>
  if p = pathFor "data" prs "o" "r" then
    some ⟨0, some ⟨["date"], [(some 1, 0), (some 2, 0)]⟩⟩
  else if p = pathFor "data" prs then
    some ⟨0, some ⟨["pr_count"], [(some 1, 0)]⟩⟩
  else none

theorem cache_read_empty_schema_cases_witness :
    getFor (fun _ => none) "data" forks "o" "r" = .ok ⟨expectedCols forks, []⟩ ∧
    getFor c6afs "data" prs "o" "r" = .ok ⟨expectedCols prs, []⟩ :=
  ⟨cache_read_empty_schema_cases.1 (fun _ => none) "data" forks "o" "r" (by rfl) (by rfl),
   cache_read_empty_schema_cases.2 c6afs "data" prs "o" "r"
     ⟨0, some ⟨["date"], [(some 1, 0), (some 2, 0)]⟩⟩
     ⟨0, some ⟨["pr_count"], [(some 1, 0)]⟩⟩
     ⟨["date"], [(some 1, 0), (some 2, 0)]⟩ ⟨["pr_count"], [(some 1, 0)]⟩
     (by rfl) (by rfl) (by rfl) (by rfl) (by rfl) (by rfl)⟩

/-- C8 (code bug): on the same underlying repository events — two issues
created on day 0 — the REST issues transport aggregates them into one
row `(0, 2)` while the GraphQL transport returns an empty series: the
`use_graphql` mode's page loop reads the response key `edges` although
its own query selects `nodes { createdAt }`, so it never sees any node.
The two transports therefore do not produce identical rows. -/
theorem issues_graphql_transport_mismatch :
    fetchAllIssues false [⟨false, some 0⟩, ⟨false, some 0⟩] = ⟨["date", "issues"], [(0, 2)]⟩ ∧
      fetchAllIssues true [⟨false, some 0⟩, ⟨false, some 0⟩] = ⟨["date", "issues"], []⟩ ∧
      fetchAllIssues true [⟨false, some 0⟩, ⟨false, some 0⟩] ≠
        fetchAllIssues false [⟨false, some 0⟩, ⟨false, some 0⟩] := by
  refine ⟨by decide, by decide, by decide⟩

/-- C10: an existing repository-specific cache file whose table has at
most one row is ignored by `get_for` even when it is schema-valid (the
`len(df) > 1` guard fails), and the read falls through to the generic
legacy lookup. -/
theorem repo_cache_single_row_ignored
    (fs : FS) (dataDir : String) (t : MetricType) (owner repo : String)
    (file : FileData) (tab : RawTable)
    (hfile : fs (pathFor dataDir t owner repo) = some file)
    (htab : file.parsed = some tab)
    (hcols : colsSubset (expectedCols t) tab.cols = true)
    (hlen : tab.rows.length ≤ 1) :
    getFor fs dataDir t owner repo = getForGeneric fs dataDir t := by
  have hgt : decide (tab.rows.length > 1) = false := by
    simp
    omega
  unfold getFor readCsv
  simp [hfile, htab, Bind.bind, Except.bind, hgt]

def c10fs : FS := fun p =>
  if p = pathFor "data" stars "o" "r" then
    some ⟨0, some ⟨["date", "stars"], [(some 3, 9)]⟩⟩
  else if p = pathFor "data" stars then
    some ⟨0, some ⟨["date", "stars"], [(some 1, 4), (some 2, 6)]⟩⟩
  else none

theorem repo_cache_single_row_ignored_witness :
    getFor c10fs "data" stars "o" "r" = getForGeneric c10fs "data" stars :=
  repo_cache_single_row_ignored c10fs "data" stars "o" "r"
    ⟨0, some ⟨["date", "stars"], [(some 3, 9)]⟩⟩ ⟨["date", "stars"], [(some 3, 9)]⟩
    (by rfl) (by rfl) (by rfl) (by decide)

end P16
